import Mathlib

/-!
Shallow embedding of the core of the api-connector repository
(src/lib/utils.js, src/lib/ApiRequest.js, src/lib/apiRequest.js) and
verification of the specified properties.

JS dynamic values are modelled by a type parameter.  Pipes hold pure unary
handlers; running a pipe is observed through the trace of inputs fed to each
stage together with the final computed value (in the source, handlers observe
their inputs and the last handler's value is the chain result).  JS objects
used as dictionaries are modelled by association lists; property deletion is
key-filtering; a JS TypeError raised by calling a non-function is modelled
explicitly.
-/

/-- Pipe from src/lib/utils.js lines 5-32: an ordered list of handler
functions; `join` pushes a handler; `process` folds the data through every
handler from the first one (this version keeps no cursor and stores no
previous result). -/
structure Pipe (α : Type) where
  pipe : List (α → α)

namespace Pipe

/-- Fresh pipe: `this.pipe = []` (utils.js line 7). -/
def new {α : Type} : Pipe α := ⟨[]⟩

/-- Pipe.join (utils.js lines 15-17): pushes the handler at the end. -/
def join {α : Type} (p : Pipe α) (handler : α → α) : Pipe α :=
  ⟨p.pipe ++ [handler]⟩

/-- One handler invocation inside a process run: record the input fed to the
handler and continue with its output. -/
def traceStep {α : Type} (acc : List α × α) (cb : α → α) : List α × α :=
  (acc.1 ++ [acc.2], cb acc.2)

/-- Pipe.process (utils.js lines 26-31), observed through the inputs fed to
each handler and the final value: `data` starts at `initialData`, every
handler in order receives the current `data` and replaces it with its output.
Calling `process()` with no argument in JS is `process undefined`; a caller
instantiates the value domain with an `Option` type to express that. -/
def processTrace {α : Type} (p : Pipe α) (initialData : α) : List α × α :=
  p.pipe.foldl traceStep ([], initialData)

/-- Final value computed by a process run (the value the last handler
returned, or the initial data when the pipe is empty). -/
def processVal {α : Type} (p : Pipe α) (initialData : α) : α :=
  (p.processTrace initialData).2

theorem processTrace_go {α : Type} (l : List (α → α)) (fed : List α) (x : α) :
    l.foldl traceStep (fed, x)
      = (fed ++ (l.foldl traceStep (([] : List α), x)).1,
         (l.foldl traceStep (([] : List α), x)).2) := by
  induction l generalizing fed x with
  | nil => simp
  | cons cb rest ih =>
    simp only [List.foldl_cons, traceStep, List.nil_append]
    rw [ih (fed ++ [x]) (cb x), ih [x] (cb x)]
    simp

/-- Appending a handler to a pipe and processing feeds the new handler the
previous final value, after re-feeding every earlier stage. -/
theorem processTrace_join {α : Type} (p : Pipe α) (g : α → α) (x : α) :
    (p.join g).processTrace x
      = ((p.processTrace x).1 ++ [(p.processTrace x).2], g (p.processTrace x).2) := by
  unfold join processTrace
  rw [List.foldl_append, processTrace_go p.pipe [] x]
  simp only [List.foldl_cons, List.foldl_nil, traceStep, List.nil_append]

/-- Each process run feeds every handler exactly once: the trace of fed
inputs has exactly one entry per handler of the pipe. -/
theorem processTrace_length {α : Type} (p : Pipe α) (x : α) :
    (p.processTrace x).1.length = p.pipe.length := by
  unfold processTrace
  induction p.pipe generalizing x with
  | nil => simp
  | cons cb rest ih =>
    simp only [List.foldl_cons, traceStep, List.nil_append, List.length_cons]
    rw [processTrace_go rest [x] (cb x)]
    simp [ih (cb x)]

/-- A process run computes the left fold of the handlers over the data. -/
theorem processVal_eq_foldl {α : Type} (p : Pipe α) (x : α) :
    p.processVal x = p.pipe.foldl (fun d cb => cb d) x := by
  unfold processVal processTrace
  induction p.pipe generalizing x with
  | nil => simp
  | cons cb rest ih =>
    simp only [List.foldl_cons, traceStep, List.nil_append]
    rw [processTrace_go rest [x] (cb x)]
    simp [ih (cb x)]

end Pipe

/-- Wrap of an integer to the signed 32-bit range, as performed by the JS
bitwise-or with zero (`hash |= 0`, utils.js line 42). -/
def toInt32 (n : Int) : Int :=
  (n + 2147483648) % 4294967296 - 2147483648

/-- One loop iteration of hashCode (utils.js lines 40-42):
`hash = ((hash << 5) - hash) + chr; hash |= 0`.  On an int32 `hash`, the JS
left shift by five is the 32-bit wrap of `hash * 32`; the subtraction and the
character-code addition are exact, and the result is wrapped by `|= 0`. -/
def hashStep (hash : Int) (chr : Nat) : Int :=
  toInt32 (toInt32 (hash * 32) - hash + chr)

/-- hashCode (utils.js lines 35-46) on the sequence of UTF-16 code units of
the string: starts from zero (also returned directly for the empty string)
and applies `hashStep` for every character. -/
def hashCode (str : List Nat) : Int :=
  str.foldl hashStep 0

/-- HashUpdate31 follows the words of the claim for the dedup hash: iterate
`hash = (hash*31 - hash) + charCode` with wraparound to the 32-bit signed
range.  Declared only to be compared against `hashCode`. -/
def claimHashStep (hash : Int) (chr : Nat) : Int :=
  toInt32 (hash * 31 - hash + chr)

/-- HashCode following the claim's words, to be compared against the
source-derived `hashCode`. -/
def claimHashCode (str : List Nat) : Int :=
  str.foldl claimHashStep 0

theorem toInt32_emod (a : Int) : toInt32 a % 4294967296 = a % 4294967296 := by
  unfold toInt32
  omega

theorem toInt32_congr (a b : Int) (h : a % 4294967296 = b % 4294967296) :
    toInt32 a = toInt32 b := by
  unfold toInt32
  omega

/-- Marker for a JS TypeError raised by calling or dereferencing a value that
is not a function or object. -/
inductive JsError : Type where
  | typeError
deriving DecidableEq

/-- Lookup of a property in a JS object modelled as an association list
(first matching key). -/
def findVal {κ β : Type} [DecidableEq κ] : List (κ × β) → κ → Option β
  | [], _ => none
  | kv :: rest, k => if kv.1 = k then some kv.2 else findVal rest k

/-- JS `delete obj[k]` on an object modelled as an association list. -/
def eraseKey {κ β : Type} [DecidableEq κ] (l : List (κ × β)) (k : κ) : List (κ × β) :=
  l.filter (fun kv => kv.1 ≠ k)

/-- The event-category pipes of a request (`this.callbacks`, ApiRequest.js
lines 33-40): one pipe per fixed category plus the status-code map, whose
keys are JS property keys, i.e. strings. -/
structure Callbacks (α : Type) where
  onOk : Pipe α
  onFail : Pipe α
  onCancel : Pipe α
  onError : Pipe α
  onStatus : List (String × Pipe α)

/-- Fresh callback set: every category pipe empty, no status pipes. -/
def Callbacks.init {α : Type} : Callbacks α :=
  ⟨Pipe.new, Pipe.new, Pipe.new, Pipe.new, []⟩

/-- The stored settlement (`this.result`, ApiRequest.js lines 41-46 and
216-237): not ready, or a transport success carrying the response, or a
transport failure carrying the thrown value. -/
inductive ResultState (α : Type) where
  | notReady
  | success (response : α)
  | failure (thrown : α)

/-- Whether `this.result.isReady` is set. -/
def ResultState.isReady {α : Type} : ResultState α → Bool
  | .notReady => false
  | .success _ => true
  | .failure _ => true

/-- The per-request state of src/lib/ApiRequest.js: callbacks, the optional
validation predicate (`this.validate`) and the stored result. -/
structure ApiRequestState (α : Type) where
  callbacks : Callbacks α
  validate : Option (α → Bool)
  result : ResultState α

/-- The classification condition of ApiRequest.processResult line 274:
`!this.validate || this.validate(response)`. -/
def validOf {α : Type} (v : Option (α → Bool)) (r : α) : Bool :=
  match v with
  | none => true
  | some p => p r

/-- Tag of a pipe run produced by processResult. -/
inductive PipeTag : Type where
  | ok
  | fail
  | cancel
  | error
  | status (code : Nat)
deriving DecidableEq

/-- Observable record of one pipe run: which pipe ran, the inputs fed to its
handlers, and the final value. -/
structure PipeRun (α : Type) where
  tag : PipeTag
  fed : List α
  final : α

/-- Run of one pipe on one input, recorded. -/
def mkRun {α : Type} (tag : PipeTag) (p : Pipe α) (x : α) : PipeRun α :=
  ⟨tag, (p.processTrace x).1, (p.processTrace x).2⟩

/-- ApiRequest.processResult (ApiRequest.js lines 261-284) as the list of
pipe runs it performs, in order.  `statusOf` models the `.status` property
read on the response; `isCancelFn` models the external `Axios.isCancel`
check.  Not ready: nothing runs.  Transport success: the status pipe for
`String(response.status)` first when registered, then the `onOk` pipe when
the validation condition holds, otherwise the `onFail` pipe.  Transport
failure: the `onCancel` pipe on a cancellation rejection, else `onError`. -/
def processResult {α : Type} (statusOf : α → Nat) (isCancelFn : α → Bool)
    (st : ApiRequestState α) : List (PipeRun α) :=
  match st.result with
  | .notReady => []
  | .success r =>
      (match findVal st.callbacks.onStatus (toString (statusOf r)) with
       | some p => [mkRun (.status (statusOf r)) p r]
       | none => []) ++
      (if validOf st.validate r then [mkRun .ok st.callbacks.onOk r]
       else [mkRun .fail st.callbacks.onFail r])
  | .failure t =>
      if isCancelFn t then [mkRun .cancel st.callbacks.onCancel t]
      else [mkRun .error st.callbacks.onError t]

/-- Whether a run is one of the four terminal categories (not a status run). -/
def isTerminalRun {α : Type} (pr : PipeRun α) : Bool :=
  match pr.tag with
  | .status _ => false
  | _ => true

/-- Result of the platform's JSON.parse, as far as the onStatus= branch of
onAny consumes it: an integer number, an array, or any other JSON value
abstracted by the string JS would use as a property key for it. -/
inductive JsonVal : Type where
  | num (n : Int)
  | arr (elems : List JsonVal)
  | other (key : String)

/-- Separator JS uses when coercing an array to a string. -/
def commaSep : String := ","

/-- JS property-key coercion of a JSON value: numbers print in decimal,
arrays join their elements with commas, other values carry their key. -/
def statusKey : JsonVal → String
  | .num n => toString n
  | .arr l => String.intercalate commaSep (l.attach.map (fun e => statusKey e.1))
  | .other k => k
decreasing_by
  simp only [JsonVal.arr.sizeOf_spec]
  have h := List.sizeOf_lt_of_mem e.2
  omega

/-- Removal of an expected pattern from the front of a character list:
the remainder when the pattern is a prefix, nothing otherwise. -/
def dropPat : List Char → List Char → Option (List Char)
  | [], l => some l
  | _ :: _, [] => none
  | p :: ps, c :: cs => if c = p then dropPat ps cs else none

/-- Everything after the first occurrence of the pattern inside the
character list, when the pattern occurs at all. -/
def findPat (pat : List Char) : List Char → Option (List Char)
  | [] =>
      match pat with
      | [] => some []
      | _ :: _ => none
  | c :: cs =>
      match dropPat pat (c :: cs) with
      | some tail => some tail
      | none => findPat pat cs

/-- The literal text of the status-event pattern, as a character list. -/
def onStatusPat : List Char := "onStatus=".data

/-- Match of the unanchored regular expression onStatus=(.*) against an
event name (ApiRequest.js line 65): the capture group is everything after
the first occurrence of the text onStatus= in the name. -/
def matchOnStatus (s : String) : Option String :=
  (findPat onStatusPat s.data).map (fun cs => String.mk cs)

/-- Replacement of the value stored under a key of a JS object modelled as
an association list. -/
def setVal {κ β : Type} [DecidableEq κ] (l : List (κ × β)) (k : κ) (v : β) :
    List (κ × β) :=
  l.map (fun kv => if kv.1 = k then (k, v) else kv)

/-- JS `obj[k] = v`: replace the value when the key exists, otherwise append
the new key. -/
def putVal {κ β : Type} [DecidableEq κ] (l : List (κ × β)) (k : κ) (v : β) :
    List (κ × β) :=
  match findVal l k with
  | some _ => setVal l k v
  | none => l ++ [(k, v)]

/-- Body of ApiRequest.onStatus (ApiRequest.js lines 158-164) for one status:
create the status pipe when missing, then join the callback to it. -/
def statusPipeJoin {α : Type} (m : List (String × Pipe α)) (key : String)
    (cb : α → α) : List (String × Pipe α) :=
  match findVal m key with
  | some p => setVal m key (p.join cb)
  | none => m ++ [(key, Pipe.new.join cb)]

/-- ApiRequest.onStatus (ApiRequest.js lines 158-167) without its trailing
processResult call: joins the callback under each requested status key. -/
def onStatusJoin {α : Type} (cb : α → α) (statuses : List JsonVal)
    (st : ApiRequestState α) : ApiRequestState α :=
  { st with callbacks :=
      { st.callbacks with onStatus :=
          (statuses.foldl (fun m j => statusPipeJoin m (statusKey j) cb)
            st.callbacks.onStatus) } }

/-- List of statuses the parsed JSON value stands for in the onStatus=
branch of onAny (ApiRequest.js lines 68-73): an array is spread into the
onStatus call, any other value is passed as a single status. -/
def jsonStatuses : JsonVal → List JsonVal
  | .arr l => l
  | j => [j]

/-- One iteration of the loop of ApiRequest.onAny (lines 60-79), carrying
the pipe runs observed so far.  The membership test against
`Object.keys(this.callbacks)` accepts the four pipe names and also the
literal name onStatus, for which the code then calls `.join` on the status
map — a plain object, hence a TypeError.  Otherwise the name is matched
against onStatus=(.*); without a match the name is ignored; with a match the
capture is JSON-parsed (a parse exception is swallowed) and handed to the
onStatus method, whose own trailing processResult call (line 165) runs
during this loop iteration and its pipe runs are recorded. -/
def onAnyStep {α : Type} (statusOf : α → Nat) (isCancelFn : α → Bool)
    (jsonParse : String → Option JsonVal) (cb : α → α)
    (acc : ApiRequestState α × List (PipeRun α)) (eventName : String) :
    Except JsError (ApiRequestState α × List (PipeRun α)) :=
  if eventName = "onOk" then
    .ok ({ acc.1 with callbacks :=
        { acc.1.callbacks with onOk := acc.1.callbacks.onOk.join cb } }, acc.2)
  else if eventName = "onFail" then
    .ok ({ acc.1 with callbacks :=
        { acc.1.callbacks with onFail := acc.1.callbacks.onFail.join cb } }, acc.2)
  else if eventName = "onCancel" then
    .ok ({ acc.1 with callbacks :=
        { acc.1.callbacks with onCancel := acc.1.callbacks.onCancel.join cb } }, acc.2)
  else if eventName = "onError" then
    .ok ({ acc.1 with callbacks :=
        { acc.1.callbacks with onError := acc.1.callbacks.onError.join cb } }, acc.2)
  else if eventName = "onStatus" then
    .error .typeError
  else
    match matchOnStatus eventName with
    | none => .ok acc
    | some captured =>
        match jsonParse captured with
        | none => .ok acc
        | some j =>
            .ok (onStatusJoin cb (jsonStatuses j) acc.1,
              acc.2 ++ processResult statusOf isCancelFn
                (onStatusJoin cb (jsonStatuses j) acc.1))

/-- The for-loop of ApiRequest.onAny: run the iterations in order, a raised
TypeError aborting the loop. -/
def onAnyLoop {α : Type} (statusOf : α → Nat) (isCancelFn : α → Bool)
    (jsonParse : String → Option JsonVal) (cb : α → α) :
    List String → ApiRequestState α × List (PipeRun α) →
      Except JsError (ApiRequestState α × List (PipeRun α))
  | [], acc => .ok acc
  | x :: rest, acc =>
      match onAnyStep statusOf isCancelFn jsonParse cb acc x with
      | .error e => .error e
      | .ok acc2 => onAnyLoop statusOf isCancelFn jsonParse cb rest acc2

/-- ApiRequest.onAny (ApiRequest.js lines 59-82): loop over the event names,
then one final processResult call; the method returns the request itself, so
the observable outcome is the updated state together with every pipe run the
call performed — those of the mid-loop onStatus dispatches followed by those
of the trailing processResult (or the TypeError that aborted the loop). -/
def onAny {α : Type} (statusOf : α → Nat) (isCancelFn : α → Bool)
    (jsonParse : String → Option JsonVal) (cb : α → α) (eventNames : List String)
    (st : ApiRequestState α) :
    Except JsError (ApiRequestState α × List (PipeRun α)) :=
  match onAnyLoop statusOf isCancelFn jsonParse cb eventNames (st, []) with
  | .error e => .error e
  | .ok s => .ok (s.1, s.2 ++ processResult statusOf isCancelFn s.1)

/-- Effect on the request state of one category event name inside the onAny
loop; a fold of these over the event names describes the state an attachment
call leaves behind.  The source attachment methods are onAny calls with
fixed name lists: onOk, onFail, onCancel, onError pass their own name,
onResponse passes onOk and onFail, then passes all four, onAnyError passes
onFail, onError and onCancel. -/
def joinCat {α : Type} (cb : α → α) (st : ApiRequestState α) (eventName : String) :
    ApiRequestState α :=
  if eventName = "onOk" then
    { st with callbacks := { st.callbacks with onOk := st.callbacks.onOk.join cb } }
  else if eventName = "onFail" then
    { st with callbacks := { st.callbacks with onFail := st.callbacks.onFail.join cb } }
  else if eventName = "onCancel" then
    { st with callbacks := { st.callbacks with onCancel := st.callbacks.onCancel.join cb } }
  else if eventName = "onError" then
    { st with callbacks := { st.callbacks with onError := st.callbacks.onError.join cb } }
  else st

/-- ApiRequest.onStatus (ApiRequest.js lines 158-167) as an attachment entry
point: join the callback under each status, then the trailing processResult
call re-dispatches the stored outcome; the method returns the request, so
the observable outcome is the updated state and those runs. -/
def onStatusAttach {α : Type} (statusOf : α → Nat) (isCancelFn : α → Bool)
    (cb : α → α) (statuses : List JsonVal) (st : ApiRequestState α) :
    ApiRequestState α × List (PipeRun α) :=
  (onStatusJoin cb statuses st,
    processResult statusOf isCancelFn (onStatusJoin cb statuses st))

/-- The event name of the ok category. -/
def okName : String := "onOk"

/-- The event name of the fail category. -/
def failName : String := "onFail"

/-- The event name of the cancel category. -/
def cancelName : String := "onCancel"

/-- The event name of the error category. -/
def errorName : String := "onError"

/-- The process-scoped pending-request registry: hash of method+url+identifier
to a bucket mapping request timestamps to cancel handles (handles are opaque
identifiers here). -/
abbrev Registry : Type := List (Int × List (Int × Nat))

/-- Loop of ApiRequest.startSingle (ApiRequest.js lines 194-198): for
`i = 0 .. Object.values(bucket).length - 1` the code reads `bucket[i]` — a
lookup of the property whose key is the loop index, not the i-th value — and
calls it.  Returns the handles invoked so far, and whether a TypeError was
raised by calling an absent property. -/
def cancelLoop (bucket : List (Int × Nat)) : List Nat → List Nat → List Nat × Bool
  | [], acc => (acc, false)
  | i :: rest, acc =>
      match findVal bucket (Int.ofNat i) with
      | some h => cancelLoop bucket rest (acc ++ [h])
      | none => (acc, true)

/-- Cancellation phase of ApiRequest.startSingle (ApiRequest.js lines
189-199): look the bucket up under the hash key; when absent, nothing is
invoked; when present, run the index loop over it. -/
def startSingleCancelPhase (reg : Registry) (info : Int) : List Nat × Bool :=
  match findVal reg info with
  | none => ([], false)
  | some bucket => cancelLoop bucket (List.range bucket.length) []

/-- Cancellation phase of the legacy apiRequest.js startSingle (lines
183-191): a for-in loop over the bucket's own keys invoking every stored
handle. -/
def startSingleCancelPhaseLower (reg : Registry) (info : Int) : List Nat :=
  match findVal reg info with
  | none => []
  | some bucket => bucket.map (fun kv => kv.2)

/-- Registration step of ApiRequest.start (ApiRequest.js lines 239-248):
create the bucket under the hash key when missing, then store the cancel
handle under the fresh request id. -/
def registerPending (reg : Registry) (info rid : Int) (h : Nat) : Registry :=
  match findVal reg info with
  | none => reg ++ [(info, [(rid, h)])]
  | some bucket => setVal reg info (putVal bucket rid h)

/-- Settlement cleanup handler attached by ApiRequest.start (ApiRequest.js
lines 250-256): delete the request id from its bucket (a TypeError when the
bucket is gone, since the code dereferences it unconditionally), then delete
the bucket itself when it became empty. -/
def registryCleanup (reg : Registry) (info rid : Int) : Except JsError Registry :=
  match findVal reg info with
  | none => .error .typeError
  | some bucket =>
      let bucket2 := eraseKey bucket rid
      if bucket2.isEmpty then .ok (eraseKey reg info)
      else .ok (setVal reg info bucket2)

/-- Value a rejected asynchronous handle carries: the tagged fail object,
the tagged cancel object, or the raw unwrapped error value. -/
inductive RejectionValue (α : Type) where
  | failTagged (data : α)
  | cancelTagged (data : α)
  | raw (v : α)

/-- Settlement of the asynchronous handle: resolution with a value, or
rejection with a rejection value. -/
inductive AsyncOutcome (α : Type) where
  | resolved (v : α)
  | rejected (e : RejectionValue α)

/-- Mapping of one terminal pipe run to the settlement of the asynchronous
handle; status runs produce no settlement. -/
def runOutcome {α : Type} (pr : PipeRun α) : Option (AsyncOutcome α) :=
  match pr.tag with
  | .ok => some (.resolved pr.final)
  | .fail => some (.rejected (.failTagged pr.final))
  | .cancel => some (.rejected (.cancelTagged pr.final))
  | .error => some (.rejected (.raw pr.final))
  | .status _ => none

/-- Modelled from the spec: the Promise-returning start wrapper is absent
from src/lib (ApiRequest.start returns the Axios cancel function); it is
declared in src/index.d.ts lines 137-175 and exercised by
src/test/request-promises.test.js.  Per spec section 4.3 step 5, the handle
settles from the terminal pipe run of the settlement: resolved on ok,
rejected with the tagged fail object on fail, rejected with the tagged
cancel object on cancel, rejected with the raw value on error — each
carrying the last value of the corresponding pipe. -/
def promiseSettlement {α : Type} (statusOf : α → Nat) (isCancelFn : α → Bool)
    (st : ApiRequestState α) : Option (AsyncOutcome α) :=
  (processResult statusOf isCancelFn st).findSome? runOutcome

/-- Modelled from the spec: ApiRequest.cancel is declared in src/index.d.ts
lines 137-140 and exercised by src/test/request-promises.test.js, but absent
from src/lib/ApiRequest.js.  The state it acts on: the stack of outstanding
cancellation handles of this request (most recent first) and the log of
invoked handles. -/
structure CancelState where
  outstanding : List Nat
  invoked : List Nat

/-- Modelled from the spec: a start entry point obtains a fresh cancellation
handle scoped to the call (spec section 4.3 step 1), which becomes the
request's most recent outstanding handle. -/
def trackStart (s : CancelState) (h : Nat) : CancelState :=
  { s with outstanding := h :: s.outstanding }

/-- Modelled from the spec: `cancel()` invokes the most recent cancellation
handle for this request if one is outstanding, and is a no-op if none is
(spec section 4.3). -/
def cancelOp (s : CancelState) : CancelState :=
  match s.outstanding with
  | [] => s
  | h :: _ => { s with invoked := s.invoked ++ [h] }

/-- Number of runs of a given tag among the runs of one settlement. -/
def countTag {α : Type} (runs : List (PipeRun α)) (t : PipeTag) : Nat :=
  (runs.filter (fun pr => decide (pr.tag = t))).length

theorem eraseKey_cons {κ β : Type} [DecidableEq κ] (kv : κ × β)
    (rest : List (κ × β)) (k : κ) :
    eraseKey (kv :: rest) k
      = if kv.1 = k then eraseKey rest k else kv :: eraseKey rest k := by
  by_cases hk : kv.1 = k <;> simp [eraseKey, List.filter_cons, hk]

theorem setVal_cons {κ β : Type} [DecidableEq κ] (kv : κ × β)
    (rest : List (κ × β)) (k : κ) (v : β) :
    setVal (kv :: rest) k v
      = (if kv.1 = k then (k, v) else kv) :: setVal rest k v := by
  simp [setVal]

theorem findVal_eraseKey_self {κ β : Type} [DecidableEq κ]
    (l : List (κ × β)) (k : κ) : findVal (eraseKey l k) k = none := by
  induction l with
  | nil => rfl
  | cons kv rest ih =>
    rw [eraseKey_cons]
    by_cases hk : kv.1 = k
    · simpa [hk] using ih
    · simpa [findVal, hk] using ih

theorem findVal_eraseKey_ne {κ β : Type} [DecidableEq κ]
    (l : List (κ × β)) (k k2 : κ) (hne : k2 ≠ k) :
    findVal (eraseKey l k) k2 = findVal l k2 := by
  induction l with
  | nil => rfl
  | cons kv rest ih =>
    rw [eraseKey_cons]
    by_cases hk : kv.1 = k
    · have h2 : kv.1 ≠ k2 := fun hx => hne (hx ▸ hk)
      rw [if_pos hk, ih]
      simp [findVal, h2]
    · rw [if_neg hk]
      by_cases hk2 : kv.1 = k2
      · simp [findVal, hk2]
      · simp [findVal, hk2, ih]

theorem findVal_setVal_self {κ β : Type} [DecidableEq κ]
    (l : List (κ × β)) (k : κ) (v : β) :
    findVal (setVal l k v) k = (findVal l k).map (fun _ => v) := by
  induction l with
  | nil => rfl
  | cons kv rest ih =>
    rw [setVal_cons]
    by_cases hk : kv.1 = k
    · simp [hk, findVal]
    · simp [hk, findVal, ih]

theorem findVal_setVal_ne {κ β : Type} [DecidableEq κ]
    (l : List (κ × β)) (k k2 : κ) (v : β) (hne : k2 ≠ k) :
    findVal (setVal l k v) k2 = findVal l k2 := by
  induction l with
  | nil => rfl
  | cons kv rest ih =>
    rw [setVal_cons]
    by_cases hk : kv.1 = k
    · have h2 : k ≠ k2 := fun hx => hne hx.symm
      have h3 : kv.1 ≠ k2 := fun hx => hne (hx ▸ hk)
      rw [if_pos hk]
      simp [findVal, h2, h3, ih]
    · rw [if_neg hk]
      by_cases hk2 : kv.1 = k2
      · simp [findVal, hk2]
      · simp [findVal, hk2, ih]

theorem hashStep_eq_amended (h : Int) (c : Nat) :
    hashStep h c = toInt32 (h * 32 - h + c) := by
  unfold hashStep
  apply toInt32_congr
  have h1 := toInt32_emod (h * 32)
  omega

theorem hashCode_foldl_amended (l : List Nat) (h : Int) :
    l.foldl hashStep h
      = l.foldl (fun (h : Int) (c : Nat) => toInt32 (h * 32 - h + c)) h := by
  induction l generalizing h with
  | nil => rfl
  | cons c rest ih =>
    rw [List.foldl_cons, List.foldl_cons, hashStep_eq_amended]
    exact ih _

/-- C8 (counterexample): the dedup hash of the two-character string ab
(code units 97, 98) is 3105 under the source update
`hash = ((hash << 5) - hash) + chr` but 3008 under the claim's update
`hash = (hash*31 - hash) + charCode`, so the claim's formula does not
compute the source hash. -/
theorem c8_hash_formula_counterexample :
    hashCode [97, 98] = 3105 ∧ claimHashCode [97, 98] = 3008 ∧
      hashCode [97, 98] ≠ claimHashCode [97, 98] := by
  refine ⟨by decide, by decide, by decide⟩

/-- C8 (amended): for every string, the dedup hash is the deterministic
32-bit signed integer obtained by iterating the characters and updating
`hash = (hash*32 - hash) + charCode` (equivalently `hash*31 + charCode`)
with wraparound to the 32-bit signed range, and the empty string hashes
to 0. -/
theorem c8_hash_amended (str : List Nat) :
    hashCode str
        = str.foldl (fun (h : Int) (c : Nat) => toInt32 (h * 32 - h + c)) 0 ∧
      hashCode [] = 0 :=
  ⟨hashCode_foldl_amended str 0, rfl⟩

/-- C1 (evaluation at the failing input): with one pending request
registered under the key `hashCode("GET" + "/u" + "")` with timestamp id
1520000000000 and cancel handle 7, a second startSingle with the same
method, url and identifier computes the same key, finds the bucket, and its
loop reads the property `bucket[0]` — absent, because the bucket is keyed by
timestamps — so it raises a TypeError having invoked no handle, instead of
cancelling handle 7; the legacy apiRequest.js loop over the bucket's own
keys does invoke handle 7. -/
theorem c1_startSingle_second_call_throws :
    startSingleCancelPhase [(hashCode [71, 69, 84, 47, 117], [(1520000000000, 7)])]
        (hashCode [71, 69, 84, 47, 117]) = ([], true) ∧
      startSingleCancelPhaseLower [(hashCode [71, 69, 84, 47, 117], [(1520000000000, 7)])]
        (hashCode [71, 69, 84, 47, 117]) = [7] := by
  refine ⟨by decide, by decide⟩

/-- C3 (evaluation at the failing input): a pipe with the single stage
`f = fun _ => some 42` processed with initial data `some 0` feeds `f` once;
after joining the stage `g = Option.map (+1)` a `process()` call with no
argument (JS `process(undefined)`, modelled by the seed `none`) re-executes
`f` from the start with `none` and then `g`, feeding the stages
`[none, some 42]` — not `[some 42]` as the claim's resume-from-cursor
behaviour would require, since this Pipe stores no cursor and no previous
result. -/
theorem c3_process_replay_from_start :
    ((Pipe.new.join fun _ : Option Nat => some 42).processTrace (some 0)
        = ([some 0], some 42)) ∧
      (((Pipe.new.join fun _ : Option Nat => some 42).join
          (Option.map fun v => v + 1)).processTrace none
        = ([none, some 42], some 43)) ∧
      ([none, some 42] ≠ ([some 42] : List (Option Nat))) := by
  refine ⟨rfl, rfl, by decide⟩

/-- C9 (evaluation at the failing input): `onAny(cb, "onStatus")` passes the
membership test on the callback-map keys and calls `.join` on the plain
status map, raising a TypeError instead of silently ignoring the unsupported
name; genuinely unknown names and status specifications whose JSON parse
fails are silently ignored, returning the request unchanged with no pipe
run. -/
theorem c9_onAny_bare_onStatus_typeerror :
    (onAny (fun _ => 0) (fun _ => false) (fun _ => none) (fun x : Nat => x)
        ["onStatus"] ⟨Callbacks.init, none, .notReady⟩ = .error .typeError) ∧
      (onAny (fun _ => 0) (fun _ => false) (fun _ => none) (fun x : Nat => x)
        ["bogusEvent"] ⟨Callbacks.init, none, .notReady⟩
        = .ok (⟨Callbacks.init, none, .notReady⟩, [])) ∧
      (onAny (fun _ => 0) (fun _ => false) (fun _ => none) (fun x : Nat => x)
        ["onStatus=["] ⟨Callbacks.init, none, .notReady⟩
        = .ok (⟨Callbacks.init, none, .notReady⟩, [])) := by
  refine ⟨rfl, rfl, rfl⟩

/-- C7: `cancel()` invokes the handle of the most recent start when one is
outstanding — after `trackStart s h` the invoked log gains exactly `h` —
and is a no-op on a request with no outstanding handle. -/
theorem c7_cancel_most_recent (s : CancelState) (h : Nat) :
    (cancelOp (trackStart s h)).invoked = s.invoked ++ [h] ∧
      cancelOp { outstanding := ([] : List Nat), invoked := s.invoked }
        = { outstanding := [], invoked := s.invoked } := by
  refine ⟨rfl, rfl⟩

/-- C2: the asynchronous handle modelled from the spec over the embedded
processResult settles exactly as the claim states: it resolves with the last
ok-Pipe value on the ok path, rejects with the fail-tagged object carrying
the last fail-Pipe value on the fail path, rejects with the cancel-tagged
object carrying the last cancel-Pipe value on the cancel path, and rejects
with the raw unwrapped last error-Pipe value on the error path. -/
theorem c2_handle_settlement {α : Type} (statusOf : α → Nat)
    (isCancelFn : α → Bool) (st : ApiRequestState α) :
    promiseSettlement statusOf isCancelFn st =
      match st.result with
      | .notReady => none
      | .success r =>
          if validOf st.validate r then
            some (.resolved (st.callbacks.onOk.processVal r))
          else some (.rejected (.failTagged (st.callbacks.onFail.processVal r)))
      | .failure t =>
          if isCancelFn t then
            some (.rejected (.cancelTagged (st.callbacks.onCancel.processVal t)))
          else some (.rejected (.raw (st.callbacks.onError.processVal t))) := by
  obtain ⟨cbs, val, res⟩ := st
  cases res with
  | notReady => rfl
  | success r =>
    cases hfv : findVal cbs.onStatus (toString (statusOf r)) with
    | none =>
      by_cases hv : validOf val r <;>
        simp [promiseSettlement, processResult, hfv, hv, runOutcome, mkRun,
          Pipe.processVal, List.findSome?]
    | some p =>
      by_cases hv : validOf val r <;>
        simp [promiseSettlement, processResult, hfv, hv, runOutcome, mkRun,
          Pipe.processVal, List.findSome?]
  | failure t =>
    by_cases hc : isCancelFn t <;>
      simp [promiseSettlement, processResult, hc, runOutcome, mkRun,
        Pipe.processVal, List.findSome?]

theorem validOf_eq_true_iff {α : Type} (v : Option (α → Bool)) (r : α) :
    validOf v r = true ↔ (v = none ∨ ∃ p, v = some p ∧ p r = true) := by
  cases v with
  | none => simp [validOf]
  | some p => simp [validOf]

/-- C4: on a transport success with response `r`, exactly one of the ok and
fail pipes runs, and the ok pipe is the one that runs precisely when no
validation predicate is configured or the predicate holds on `r`. -/
theorem c4_classification {α : Type} (statusOf : α → Nat) (isCancelFn : α → Bool)
    (st : ApiRequestState α) (r : α) (hres : st.result = .success r) :
    countTag (processResult statusOf isCancelFn st) .ok
        + countTag (processResult statusOf isCancelFn st) .fail = 1 ∧
      (countTag (processResult statusOf isCancelFn st) .ok = 1 ↔
        (st.validate = none ∨ ∃ p, st.validate = some p ∧ p r = true)) := by
  have hiff := validOf_eq_true_iff st.validate r
  obtain ⟨cbs, val, res⟩ := st
  simp only at hres hiff
  subst hres
  cases hfv : findVal cbs.onStatus (toString (statusOf r)) with
  | none =>
    by_cases hv : validOf val r <;>
      simp_all [processResult, countTag, mkRun, hfv]
  | some p =>
    by_cases hv : validOf val r <;>
      simp_all [processResult, countTag, mkRun, hfv]

/-- Concrete request state used to instantiate the settled-request theorems:
an ok pipe with one handler, a status pipe registered for code 200, no
validation predicate, settled with response 5. -/
def witOkPipe : Pipe Nat := Pipe.new.join (fun x => x + 1)

/-- Concrete status pipe for the witnesses. -/
def witStatusPipe : Pipe Nat := Pipe.new.join (fun x => x * 2)

/-- Concrete settled request state for the witnesses. -/
def witSt : ApiRequestState Nat :=
  { callbacks :=
      { onOk := witOkPipe, onFail := Pipe.new, onCancel := Pipe.new,
        onError := Pipe.new, onStatus := [("200", witStatusPipe)] },
    validate := none,
    result := .success 5 }

/-- Witness for C4 at the concrete settled state. -/
theorem c4_classification_witness :
    witSt.result = .success 5 ∧
      (countTag (processResult (fun _ => 200) (fun _ => false) witSt) .ok
          + countTag (processResult (fun _ => 200) (fun _ => false) witSt) .fail = 1 ∧
        (countTag (processResult (fun _ => 200) (fun _ => false) witSt) .ok = 1 ↔
          (witSt.validate = none ∨ ∃ p, witSt.validate = some p ∧ p 5 = true))) :=
  ⟨rfl, c4_classification (fun _ => 200) (fun _ => false) witSt 5 rfl⟩

/-- C5: on a transport success whose status code has a registered status
pipe, the status pipe runs first, before the ok/fail classification; each of
its registered callbacks is fed exactly once; and the classification run
following it is determined by the validation predicate alone — under an
always-true and under an always-false predicate the status run is the same
and still first. -/
theorem c5_status_dispatch {α : Type} (statusOf : α → Nat) (isCancelFn : α → Bool)
    (st : ApiRequestState α) (r : α) (p : Pipe α)
    (hres : st.result = .success r)
    (hp : findVal st.callbacks.onStatus (toString (statusOf r)) = some p) :
    processResult statusOf isCancelFn st
        = mkRun (.status (statusOf r)) p r ::
            (if validOf st.validate r then [mkRun .ok st.callbacks.onOk r]
             else [mkRun .fail st.callbacks.onFail r]) ∧
      (mkRun (.status (statusOf r)) p r).fed.length = p.pipe.length ∧
      processResult statusOf isCancelFn { st with validate := some (fun _ => true) }
        = mkRun (.status (statusOf r)) p r :: [mkRun .ok st.callbacks.onOk r] ∧
      processResult statusOf isCancelFn { st with validate := some (fun _ => false) }
        = mkRun (.status (statusOf r)) p r :: [mkRun .fail st.callbacks.onFail r] := by
  obtain ⟨cbs, val, res⟩ := st
  simp only at hres hp
  subst hres
  refine ⟨?_, ?_, ?_, ?_⟩
  · by_cases hv : validOf val r <;> simp [processResult, hp, hv]
  · simp [mkRun, Pipe.processTrace_length]
  · simp [processResult, hp, validOf]
  · simp [processResult, hp, validOf]

/-- Witness for C5 at the concrete settled state with a registered status
pipe for code 200. -/
theorem c5_status_dispatch_witness :
    witSt.result = .success 5 ∧
      findVal witSt.callbacks.onStatus (toString 200) = some witStatusPipe ∧
      (processResult (fun _ => 200) (fun _ => false) witSt
          = mkRun (.status 200) witStatusPipe 5 ::
              (if validOf witSt.validate 5 then [mkRun .ok witSt.callbacks.onOk 5]
               else [mkRun .fail witSt.callbacks.onFail 5]) ∧
        (mkRun (.status 200) witStatusPipe 5).fed.length = witStatusPipe.pipe.length ∧
        processResult (fun _ => 200) (fun _ => false)
            { witSt with validate := some (fun _ => true) }
          = mkRun (.status 200) witStatusPipe 5 :: [mkRun .ok witSt.callbacks.onOk 5] ∧
        processResult (fun _ => 200) (fun _ => false)
            { witSt with validate := some (fun _ => false) }
          = mkRun (.status 200) witStatusPipe 5 :: [mkRun .fail witSt.callbacks.onFail 5]) :=
  ⟨rfl, rfl, c5_status_dispatch (fun _ => 200) (fun _ => false) witSt 5 witStatusPipe rfl rfl⟩

/-- C6: at any settlement exactly one terminal pipe runs — so the cleanup
handler that ApiRequest.start joined to all four terminal pipes executes
exactly once per settlement — and the cleanup removes the settled request's
handle from its bucket and never leaves an empty bucket under its key, while
the buckets of every other key are untouched. -/
theorem c6_registry_cleanup {α : Type} (statusOf : α → Nat) (isCancelFn : α → Bool)
    (st : ApiRequestState α) (reg : Registry) (info rid : Int)
    (bucket : List (Int × Nat)) (h : Nat)
    (hready : st.result.isReady = true)
    (hbucket : findVal reg info = some bucket)
    (hmem : findVal bucket rid = some h) :
    ((processResult statusOf isCancelFn st).filter isTerminalRun).length = 1 ∧
      ∃ reg2, registryCleanup reg info rid = .ok reg2 ∧
        (findVal reg2 info = none ∨
          ∃ b2, findVal reg2 info = some b2 ∧ findVal b2 rid = none ∧ b2 ≠ []) ∧
        (∀ k, k ≠ info → findVal reg2 k = findVal reg k) := by
  constructor
  · obtain ⟨cbs, val, res⟩ := st
    cases res with
    | notReady => simp [ResultState.isReady] at hready
    | success r =>
      cases hfv : findVal cbs.onStatus (toString (statusOf r)) with
      | none =>
        by_cases hv : validOf val r <;>
          simp [processResult, hfv, hv, isTerminalRun, mkRun]
      | some p =>
        by_cases hv : validOf val r <;>
          simp [processResult, hfv, hv, isTerminalRun, mkRun]
    | failure t =>
      by_cases hc : isCancelFn t <;>
        simp [processResult, hc, isTerminalRun, mkRun]
  · unfold registryCleanup
    rw [hbucket]
    by_cases hb : (eraseKey bucket rid).isEmpty
    · refine ⟨eraseKey reg info, by simp [hb], ?_, ?_⟩
      · exact Or.inl (findVal_eraseKey_self reg info)
      · intro k hk
        exact findVal_eraseKey_ne reg info k hk
    · refine ⟨setVal reg info (eraseKey bucket rid), by simp [hb], ?_, ?_⟩
      · refine Or.inr ⟨eraseKey bucket rid, ?_, findVal_eraseKey_self bucket rid, ?_⟩
        · rw [findVal_setVal_self, hbucket]
          rfl
        · intro he
          rw [he] at hb
          simp at hb
      · intro k hk
        exact findVal_setVal_ne reg info k (eraseKey bucket rid) hk

/-- Witness for C6 at a concrete settled state and a concrete registry with
one bucket holding one handle. -/
theorem c6_registry_cleanup_witness :
    witSt.result.isReady = true ∧
      findVal ([(1, [(10, 3)])] : Registry) 1 = some [(10, 3)] ∧
      findVal [((10 : Int), (3 : Nat))] 10 = some 3 ∧
      (((processResult (fun _ => 200) (fun _ => false) witSt).filter
            isTerminalRun).length = 1 ∧
        ∃ reg2, registryCleanup [(1, [(10, 3)])] 1 10 = .ok reg2 ∧
          (findVal reg2 1 = none ∨
            ∃ b2, findVal reg2 1 = some b2 ∧ findVal b2 10 = none ∧ b2 ≠ []) ∧
          (∀ k, k ≠ 1 → findVal reg2 k = findVal ([(1, [(10, 3)])] : Registry) k)) :=
  ⟨rfl, rfl, rfl,
    c6_registry_cleanup (fun _ => 200) (fun _ => false) witSt [(1, [(10, 3)])]
      1 10 [(10, 3)] 3 rfl rfl rfl⟩

/-- The literal event name of the status map entry in the callbacks object. -/
def statusName : String := "onStatus"

theorem matchOnStatus_okName : matchOnStatus okName = none := by decide

theorem matchOnStatus_failName : matchOnStatus failName = none := by decide

theorem matchOnStatus_cancelName : matchOnStatus cancelName = none := by decide

theorem matchOnStatus_errorName : matchOnStatus errorName = none := by decide

theorem matchOnStatus_statusName : matchOnStatus statusName = none := by decide

theorem matchOnStatus_not_cat {n cap : String} (h : matchOnStatus n = some cap) :
    n ≠ "onOk" ∧ n ≠ "onFail" ∧ n ≠ "onCancel" ∧ n ≠ "onError" ∧ n ≠ "onStatus" := by
  refine ⟨fun he => ?_, fun he => ?_, fun he => ?_, fun he => ?_, fun he => ?_⟩
  · have he2 : n = okName := he
    rw [he2, matchOnStatus_okName] at h
    exact Option.noConfusion h
  · have he2 : n = failName := he
    rw [he2, matchOnStatus_failName] at h
    exact Option.noConfusion h
  · have he2 : n = cancelName := he
    rw [he2, matchOnStatus_cancelName] at h
    exact Option.noConfusion h
  · have he2 : n = errorName := he
    rw [he2, matchOnStatus_errorName] at h
    exact Option.noConfusion h
  · have he2 : n = statusName := he
    rw [he2, matchOnStatus_statusName] at h
    exact Option.noConfusion h

theorem findVal_append {κ β : Type} [DecidableEq κ] (l1 l2 : List (κ × β)) (k : κ) :
    findVal (l1 ++ l2) k
      = match findVal l1 k with
        | some v => some v
        | none => findVal l2 k := by
  induction l1 with
  | nil => rfl
  | cons kv rest ih =>
    by_cases hk : kv.1 = k
    · simp [findVal, hk]
    · simp [findVal, hk, ih]

theorem findVal_statusPipeJoin {α : Type} (m : List (String × Pipe α))
    (key : String) (cb : α → α) :
    findVal (statusPipeJoin m key cb) key
      = some (((findVal m key).getD Pipe.new).join cb) := by
  unfold statusPipeJoin
  cases hf : findVal m key with
  | some p =>
    rw [findVal_setVal_self, hf]
    rfl
  | none =>
    rw [findVal_append, hf]
    simp [findVal]

theorem onAnyStep_cat {α : Type} (statusOf : α → Nat) (isCancelFn : α → Bool)
    (jsonParse : String → Option JsonVal) (cb : α → α)
    (st : ApiRequestState α) (rs : List (PipeRun α)) (x : String)
    (hx : x = "onOk" ∨ x = "onFail" ∨ x = "onCancel" ∨ x = "onError") :
    onAnyStep statusOf isCancelFn jsonParse cb (st, rs) x
      = .ok (joinCat cb st x, rs) := by
  rcases hx with h | h | h | h <;> subst h <;> rfl

theorem onAnyLoop_cat {α : Type} (statusOf : α → Nat) (isCancelFn : α → Bool)
    (jsonParse : String → Option JsonVal) (cb : α → α) (names : List String) :
    (∀ x ∈ names, x = "onOk" ∨ x = "onFail" ∨ x = "onCancel" ∨ x = "onError") →
    ∀ (st : ApiRequestState α) (rs : List (PipeRun α)),
      onAnyLoop statusOf isCancelFn jsonParse cb names (st, rs)
        = .ok (names.foldl (joinCat cb) st, rs) := by
  induction names with
  | nil =>
    intro _ st rs
    rfl
  | cons x rest ih =>
    intro hnames st rs
    have hx := hnames x (List.mem_cons_self x rest)
    have hstep := onAnyStep_cat statusOf isCancelFn jsonParse cb st rs x hx
    simp only [onAnyLoop, hstep, List.foldl_cons]
    exact ih (fun y hy => hnames y (List.mem_cons_of_mem x hy)) (joinCat cb st x) rs

/-- C10: after a request has settled, every subsequent attachment call
synchronously re-dispatches the stored outcome.  First conjunct: an onAny
call whose event names are category names — which covers onOk, onFail,
onCancel, onError, onResponse (onOk and onFail), then (all four) and
onAnyError (onFail, onError, onCancel), each of which is exactly such an
onAny call — returns the request with the callback joined to the named
pipes together with the runs of the immediate processResult on the stored
result.  The next four conjuncts evaluate that re-dispatch for each
category against every stored outcome: the pipe matching the stored outcome
re-runs from its first stage with the originally stored response or error
(the matching status pipe re-running first on a stored success), and when
the newly attached handler sits in the matching pipe it runs last, on the
recomputed chain value.  The final two conjuncts cover the status routes:
the onStatus method joins the callback and re-dispatches, the joined status
pipe re-running in full with the new handler last; and an onAny call with an
onStatus= event name performs both the mid-loop dispatch of onStatus and
the trailing one. -/
theorem c10_redispatch {α : Type} (statusOf : α → Nat) (isCancelFn : α → Bool)
    (jsonParse : String → Option JsonVal) (cb : α → α)
    (names : List String) (n cap : String) (j : JsonVal)
    (st : ApiRequestState α) (r : α) :
    ((∀ x ∈ names, x = "onOk" ∨ x = "onFail" ∨ x = "onCancel" ∨ x = "onError") →
      onAny statusOf isCancelFn jsonParse cb names st
        = .ok (names.foldl (joinCat cb) st,
            processResult statusOf isCancelFn (names.foldl (joinCat cb) st))) ∧
    (processResult statusOf isCancelFn (joinCat cb st okName)
      = match st.result with
        | .notReady => []
        | .success r2 =>
            (match findVal st.callbacks.onStatus (toString (statusOf r2)) with
             | some p => [mkRun (.status (statusOf r2)) p r2]
             | none => []) ++
            (if validOf st.validate r2 then
               [⟨.ok, (st.callbacks.onOk.processTrace r2).1
                   ++ [(st.callbacks.onOk.processTrace r2).2],
                 cb ((st.callbacks.onOk.processTrace r2).2)⟩]
             else [mkRun .fail st.callbacks.onFail r2])
        | .failure t2 =>
            if isCancelFn t2 then [mkRun .cancel st.callbacks.onCancel t2]
            else [mkRun .error st.callbacks.onError t2]) ∧
    (processResult statusOf isCancelFn (joinCat cb st failName)
      = match st.result with
        | .notReady => []
        | .success r2 =>
            (match findVal st.callbacks.onStatus (toString (statusOf r2)) with
             | some p => [mkRun (.status (statusOf r2)) p r2]
             | none => []) ++
            (if validOf st.validate r2 then [mkRun .ok st.callbacks.onOk r2]
             else
               [⟨.fail, (st.callbacks.onFail.processTrace r2).1
                   ++ [(st.callbacks.onFail.processTrace r2).2],
                 cb ((st.callbacks.onFail.processTrace r2).2)⟩])
        | .failure t2 =>
            if isCancelFn t2 then [mkRun .cancel st.callbacks.onCancel t2]
            else [mkRun .error st.callbacks.onError t2]) ∧
    (processResult statusOf isCancelFn (joinCat cb st cancelName)
      = match st.result with
        | .notReady => []
        | .success r2 =>
            (match findVal st.callbacks.onStatus (toString (statusOf r2)) with
             | some p => [mkRun (.status (statusOf r2)) p r2]
             | none => []) ++
            (if validOf st.validate r2 then [mkRun .ok st.callbacks.onOk r2]
             else [mkRun .fail st.callbacks.onFail r2])
        | .failure t2 =>
            if isCancelFn t2 then
              [⟨.cancel, (st.callbacks.onCancel.processTrace t2).1
                  ++ [(st.callbacks.onCancel.processTrace t2).2],
                cb ((st.callbacks.onCancel.processTrace t2).2)⟩]
            else [mkRun .error st.callbacks.onError t2]) ∧
    (processResult statusOf isCancelFn (joinCat cb st errorName)
      = match st.result with
        | .notReady => []
        | .success r2 =>
            (match findVal st.callbacks.onStatus (toString (statusOf r2)) with
             | some p => [mkRun (.status (statusOf r2)) p r2]
             | none => []) ++
            (if validOf st.validate r2 then [mkRun .ok st.callbacks.onOk r2]
             else [mkRun .fail st.callbacks.onFail r2])
        | .failure t2 =>
            if isCancelFn t2 then [mkRun .cancel st.callbacks.onCancel t2]
            else
              [⟨.error, (st.callbacks.onError.processTrace t2).1
                  ++ [(st.callbacks.onError.processTrace t2).2],
                cb ((st.callbacks.onError.processTrace t2).2)⟩]) ∧
    (st.result = .success r → statusKey j = toString (statusOf r) →
      onStatusAttach statusOf isCancelFn cb [j] st
        = (onStatusJoin cb [j] st,
           [⟨.status (statusOf r),
             (((findVal st.callbacks.onStatus (toString (statusOf r))).getD
                 Pipe.new).processTrace r).1
               ++ [(((findVal st.callbacks.onStatus (toString (statusOf r))).getD
                     Pipe.new).processTrace r).2],
             cb ((((findVal st.callbacks.onStatus (toString (statusOf r))).getD
                     Pipe.new).processTrace r).2)⟩]
           ++ (if validOf st.validate r then [mkRun .ok st.callbacks.onOk r]
               else [mkRun .fail st.callbacks.onFail r]))) ∧
    (matchOnStatus n = some cap → jsonParse cap = some j →
      onAny statusOf isCancelFn jsonParse cb [n] st
        = .ok (onStatusJoin cb (jsonStatuses j) st,
            processResult statusOf isCancelFn (onStatusJoin cb (jsonStatuses j) st)
              ++ processResult statusOf isCancelFn
                (onStatusJoin cb (jsonStatuses j) st))) := by
  refine ⟨?_, ?_, ?_, ?_, ?_, ?_, ?_⟩
  · intro hnames
    have hl := onAnyLoop_cat statusOf isCancelFn jsonParse cb names hnames st []
    simp [onAny, hl]
  · obtain ⟨cbs, val, res⟩ := st
    cases res with
    | notReady => simp [processResult, joinCat, okName]
    | success r2 =>
      cases hfv : findVal cbs.onStatus (toString (statusOf r2)) with
      | none =>
        by_cases hv : validOf val r2 <;>
          simp [processResult, joinCat, okName, hfv, hv, mkRun, Pipe.processTrace_join]
      | some p =>
        by_cases hv : validOf val r2 <;>
          simp [processResult, joinCat, okName, hfv, hv, mkRun, Pipe.processTrace_join]
    | failure t2 =>
      by_cases hc : isCancelFn t2 <;>
        simp [processResult, joinCat, okName, hc, mkRun]
  · obtain ⟨cbs, val, res⟩ := st
    cases res with
    | notReady => simp [processResult, joinCat, failName]
    | success r2 =>
      cases hfv : findVal cbs.onStatus (toString (statusOf r2)) with
      | none =>
        by_cases hv : validOf val r2 <;>
          simp [processResult, joinCat, failName, hfv, hv, mkRun, Pipe.processTrace_join]
      | some p =>
        by_cases hv : validOf val r2 <;>
          simp [processResult, joinCat, failName, hfv, hv, mkRun, Pipe.processTrace_join]
    | failure t2 =>
      by_cases hc : isCancelFn t2 <;>
        simp [processResult, joinCat, failName, hc, mkRun]
  · obtain ⟨cbs, val, res⟩ := st
    cases res with
    | notReady => simp [processResult, joinCat, cancelName]
    | success r2 =>
      cases hfv : findVal cbs.onStatus (toString (statusOf r2)) with
      | none =>
        by_cases hv : validOf val r2 <;>
          simp [processResult, joinCat, cancelName, hfv, hv, mkRun]
      | some p =>
        by_cases hv : validOf val r2 <;>
          simp [processResult, joinCat, cancelName, hfv, hv, mkRun]
    | failure t2 =>
      by_cases hc : isCancelFn t2 <;>
        simp [processResult, joinCat, cancelName, hc, mkRun, Pipe.processTrace_join]
  · obtain ⟨cbs, val, res⟩ := st
    cases res with
    | notReady => simp [processResult, joinCat, errorName]
    | success r2 =>
      cases hfv : findVal cbs.onStatus (toString (statusOf r2)) with
      | none =>
        by_cases hv : validOf val r2 <;>
          simp [processResult, joinCat, errorName, hfv, hv, mkRun]
      | some p =>
        by_cases hv : validOf val r2 <;>
          simp [processResult, joinCat, errorName, hfv, hv, mkRun]
    | failure t2 =>
      by_cases hc : isCancelFn t2 <;>
        simp [processResult, joinCat, errorName, hc, mkRun, Pipe.processTrace_join]
  · intro hres hkey
    obtain ⟨cbs, val, res⟩ := st
    simp only at hres hkey
    subst hres
    unfold onStatusAttach
    refine congrArg (Prod.mk _) ?_
    simp only [onStatusJoin, List.foldl_cons, List.foldl_nil]
    rw [hkey]
    by_cases hv : validOf val r <;>
      simp [processResult, findVal_statusPipeJoin, mkRun, Pipe.processTrace_join, hv]
  · intro hn1 hn2
    obtain ⟨h1, h2, h3, h4, h5⟩ := matchOnStatus_not_cat hn1
    simp [onAny, onAnyLoop, onAnyStep, h1, h2, h3, h4, h5, hn1, hn2]

/-- Concrete JSON parser for the re-dispatch witness. -/
def witJsonParse : String → Option JsonVal :=
  fun s => if s = "200" then some (.num 200) else none

/-- Concrete newly attached handler for the re-dispatch witness. -/
def witCb : Nat → Nat := fun x => x + 10

/-- Event names passed by the source method named then, used by the
re-dispatch witness. -/
def witNames : List String := ["onOk", "onFail", "onCancel", "onError"]

/-- Status event name used by the re-dispatch witness. -/
def witEventName : String := "onStatus=200"

/-- Captured status text of the status event name used by the witness. -/
def witCap : String := "200"

/-- Witness for C10 at the concrete settled state: the attachment of the
then route, the onStatus method, and an onAny call with a status event
name, each applied to the settled request. -/
theorem c10_redispatch_witness :
    (onAny (fun _ => 200) (fun _ => false) witJsonParse witCb witNames witSt
        = .ok (witNames.foldl (joinCat witCb) witSt,
            processResult (fun _ => 200) (fun _ => false)
              (witNames.foldl (joinCat witCb) witSt))) ∧
    (onStatusAttach (fun _ => 200) (fun _ => false) witCb [JsonVal.num 200] witSt
        = (onStatusJoin witCb [JsonVal.num 200] witSt,
           [⟨.status 200,
             (((findVal witSt.callbacks.onStatus (toString (200 : Nat))).getD
                 Pipe.new).processTrace 5).1
               ++ [(((findVal witSt.callbacks.onStatus (toString (200 : Nat))).getD
                     Pipe.new).processTrace 5).2],
             witCb ((((findVal witSt.callbacks.onStatus (toString (200 : Nat))).getD
                     Pipe.new).processTrace 5).2)⟩]
           ++ (if validOf witSt.validate 5 then [mkRun .ok witSt.callbacks.onOk 5]
               else [mkRun .fail witSt.callbacks.onFail 5]))) ∧
    (onAny (fun _ => 200) (fun _ => false) witJsonParse witCb [witEventName] witSt
        = .ok (onStatusJoin witCb (jsonStatuses (JsonVal.num 200)) witSt,
            processResult (fun _ => 200) (fun _ => false)
                (onStatusJoin witCb (jsonStatuses (JsonVal.num 200)) witSt)
              ++ processResult (fun _ => 200) (fun _ => false)
                (onStatusJoin witCb (jsonStatuses (JsonVal.num 200)) witSt))) :=
  ⟨(c10_redispatch (fun _ => 200) (fun _ => false) witJsonParse witCb witNames
      witEventName witCap (JsonVal.num 200) witSt 5).1 (by decide),
   (c10_redispatch (fun _ => 200) (fun _ => false) witJsonParse witCb witNames
      witEventName witCap (JsonVal.num 200) witSt 5).2.2.2.2.2.1 rfl
      (by simp only [statusKey]; rfl),
   (c10_redispatch (fun _ => 200) (fun _ => false) witJsonParse witCb witNames
      witEventName witCap (JsonVal.num 200) witSt 5).2.2.2.2.2.2 rfl rfl⟩
